import Mathlib

set_option maxRecDepth 8000

/-!
Verification of the two maintenance scripts of this repository:
`scripts/rename-edra-to-kebab.py` (the Renamer) and
`scripts/fix-edra-imports.py` (the Import Fixer).

File contents are modelled as `List Char`.  Python string replacement
(`str.replace`) is modelled by `replaceAll`, and the per-file loops of the
two scripts by `renamerContentUpdate` and `fixerContentUpdate`.
-/

abbrev Txt : Type := List Char

/-- Python `t.replace(k, v)` on `List Char`: scan left to right and replace
each leftmost non-overlapping occurrence of `k` by `v`.  The `fuel`
argument makes the recursion structural; `replaceAll` instantiates it with
the length of the text, which always suffices.  (For `k = []` this returns
the text unchanged; both scripts only use nonempty keys.) -/
def replaceAllFuel (k v : Txt) : Nat → Txt → Txt
  | _, [] => []
  | 0, t => t
  | fuel + 1, c :: cs =>
    if k ≠ [] ∧ k <+: (c :: cs) then
      v ++ replaceAllFuel k v fuel ((c :: cs).drop k.length)
    else
      c :: replaceAllFuel k v fuel cs

/-- Python `t.replace(k, v)` for the nonempty keys used by the scripts. -/
def replaceAll (k v t : Txt) : Txt := replaceAllFuel k v t.length t

/-- The second-pass loop body of the Renamer
(rename-edra-to-kebab.py, lines 151-152): for each mapping entry, in
order, `content = content.replace(old_name, new_name)`, unguarded. -/
def renamerContentUpdate : List (Txt × Txt) → Txt → Txt
  | [], t => t
  | (old, nw) :: rest, t => renamerContentUpdate rest (replaceAll old nw t)

/-- The per-file loop body of the Import Fixer
(fix-edra-imports.py, lines 57-59): the replacement for each entry is
guarded by `if old_import in content`. -/
def fixerContentUpdate : List (Txt × Txt) → Txt → Txt
  | [], t => t
  | (old, nw) :: rest, t =>
    fixerContentUpdate rest (if old <:+: t then replaceAll old nw t else t)

/-- The `replacements` mapping of the second pass of the Renamer
(rename-edra-to-kebab.py, lines 100-141), in source (= Python dict
insertion) order. -/
def renamerReplacements : List (Txt × Txt) :=
  [ ("MediaPlaceHolder.svelte".toList, "media-placeholder.svelte".toList),
    ("BubbleMenu.svelte".toList, "bubble-menu.svelte".toList),
    ("DragHandle.svelte".toList, "drag-handle.svelte".toList),
    ("FindAndReplace.ts".toList, "find-and-replace.ts".toList),
    ("InlineMathReplacer.ts".toList, "inline-math-replacer.ts".toList),
    ("ColorHighlighter.ts".toList, "color-highlighter.ts".toList),
    ("VideoPlaceholder.ts".toList, "video-placeholder.ts".toList),
    ("VideoExtension.ts".toList, "video-extension.ts".toList),
    ("VideoExtended.ts".toList, "video-extended.ts".toList),
    ("IFramePlaceholder.ts".toList, "iframe-placeholder.ts".toList),
    ("IFrame.ts".toList, "iframe.ts".toList),
    ("IFrameExtended.ts".toList, "iframe-extended.ts".toList),
    ("AudioPlaceholder.ts".toList, "audio-placeholder.ts".toList),
    ("AudiExtended.ts".toList, "audio-extended.ts".toList),
    ("AudioExtension.ts".toList, "audio-extension.ts".toList),
    ("ImageExtended.ts".toList, "image-extended.ts".toList),
    ("ImagePlaceholder.ts".toList, "image-placeholder.ts".toList),
    ("ClipboardSerializer.ts".toList, "clipboard-serializer.ts".toList),
    ("IFrameExtended.svelte".toList, "iframe-extended.svelte".toList),
    ("VideoExtended.svelte".toList, "video-extended.svelte".toList),
    ("VideoPlaceholder.svelte".toList, "video-placeholder.svelte".toList),
    ("EdraToolTip.svelte".toList, "edra-tooltip.svelte".toList),
    ("IFramePlaceHolder.svelte".toList, "iframe-placeholder.svelte".toList),
    ("ImagePlaceholder.svelte".toList, "image-placeholder.svelte".toList),
    ("MediaExtended.svelte".toList, "media-extended.svelte".toList),
    ("CodeBlock.svelte".toList, "code-block.svelte".toList),
    ("AudioExtended.svelte".toList, "audio-extended.svelte".toList),
    ("SlashCommandList.svelte".toList, "slash-command-list.svelte".toList),
    ("AudioPlaceHolder.svelte".toList, "audio-placeholder.svelte".toList),
    ("ImageExtended.svelte".toList, "image-extended.svelte".toList),
    ("ToolBarIcon.svelte".toList, "toolbar-icon.svelte".toList),
    ("Alignment.svelte".toList, "alignment.svelte".toList),
    ("QuickColors.svelte".toList, "quick-colors.svelte".toList),
    ("Headings.svelte".toList, "headings.svelte".toList),
    ("SearchAndReplace.svelte".toList, "search-and-replace.svelte".toList),
    ("FontSize.svelte".toList, "font-size.svelte".toList),
    ("TableRow.svelte".toList, "table-row.svelte".toList),
    ("TableCol.svelte".toList, "table-col.svelte".toList),
    ("Menu.svelte".toList, "menu.svelte".toList),
    ("Link.svelte".toList, "link.svelte".toList) ]

/-- The `IMPORT_REPLACEMENTS` mapping of the Import Fixer
(fix-edra-imports.py, lines 11-38), in source order. -/
def importReplacements : List (Txt × Txt) :=
  [ ("ColorHighlighter.js".toList, "color-highlighter.js".toList),
    ("FindAndReplace.js".toList, "find-and-replace.js".toList),
    ("InlineMathReplacer.js".toList, "inline-math-replacer.js".toList),
    ("VideoPlaceholder.js".toList, "video-placeholder.js".toList),
    ("VideoExtension.js".toList, "video-extension.js".toList),
    ("VideoExtended.js".toList, "video-extended.js".toList),
    ("IFramePlaceholder.js".toList, "iframe-placeholder.js".toList),
    ("IFrame.js".toList, "iframe.js".toList),
    ("IFrameExtended.js".toList, "iframe-extended.js".toList),
    ("AudioPlaceholder.js".toList, "audio-placeholder.js".toList),
    ("AudiExtended.js".toList, "audio-extended.js".toList),
    ("AudioExtension.js".toList, "audio-extension.js".toList),
    ("ImageExtended.js".toList, "image-extended.js".toList),
    ("ImagePlaceholder.js".toList, "image-placeholder.js".toList),
    ("ClipboardSerializer.js".toList, "clipboard-serializer.js".toList) ]

example : replaceAll ("aa".toList) ("b".toList) ("aaa".toList) = "ba".toList := by decide

example :
    renamerContentUpdate renamerReplacements ("x BubbleMenu.svelte y".toList)
      = "x bubble-menu.svelte y".toList := by decide

/-! Basic facts about prefixes, suffixes and infixes of `List Char`. -/

theorem pref_nil_any {t : Txt} : ([] : Txt) <+: t := ⟨t, rfl⟩

theorem pref_of_nil {l : Txt} (h : l <+: []) : l = [] := by
  obtain ⟨r, hr⟩ := h
  exact (List.append_eq_nil.mp hr).1

theorem pref_cons_iff {a b : Char} {l t : Txt} :
    (a :: l) <+: (b :: t) ↔ a = b ∧ l <+: t := by
  constructor
  · rintro ⟨r, hr⟩
    rw [List.cons_append] at hr
    injection hr with h1 h2
    exact ⟨h1, r, h2⟩
  · rintro ⟨rfl, r, hr⟩
    exact ⟨r, by rw [List.cons_append, hr]⟩

theorem pref_take (t : Txt) (n : Nat) : t.take n <+: t :=
  ⟨t.drop n, List.take_append_drop n t⟩

theorem suff_drop (t : Txt) (n : Nat) : t.drop n <:+ t :=
  ⟨t.take n, List.take_append_drop n t⟩

theorem suff_cons_lift {l t : Txt} {c : Char} (h : l <:+ t) : l <:+ c :: t := by
  obtain ⟨s, hs⟩ := h
  exact ⟨c :: s, by rw [List.cons_append, hs]⟩

theorem infix_of_pref {l t : Txt} (h : l <+: t) : l <:+: t := by
  obtain ⟨r, hr⟩ := h
  exact ⟨[], r, by simpa using hr⟩

theorem nil_infix_any {t : Txt} : ([] : Txt) <:+: t := ⟨[], t, rfl⟩

theorem infix_nil_eq {l : Txt} (h : l <:+: []) : l = [] := by
  obtain ⟨s, r, hs⟩ := h
  have h1 := List.append_eq_nil.mp hs
  exact (List.append_eq_nil.mp h1.1).2

theorem infix_cons_lift {l t : Txt} {c : Char} (h : l <:+: t) : l <:+: c :: t := by
  obtain ⟨s, r, hs⟩ := h
  exact ⟨c :: s, r, by simp only [List.cons_append, List.append_assoc] at hs ⊢; rw [hs]⟩

theorem infix_trans_suff {l s t : Txt} (h1 : l <:+: s) (h2 : s <:+ t) : l <:+: t := by
  obtain ⟨a, b, hab⟩ := h1
  obtain ⟨p, hp⟩ := h2
  exact ⟨p ++ a, b, by rw [← hp, ← hab]; simp⟩

theorem infix_drop_lift {l t : Txt} {n : Nat} (h : l <:+: t.drop n) : l <:+: t :=
  infix_trans_suff h (suff_drop t n)

theorem infix_of_pref_suff {v s b : Txt} (h1 : v <+: s) (h2 : s <:+ b) : v <:+: b :=
  infix_trans_suff (infix_of_pref h1) h2

theorem pref_append_split {k a b : Txt} (h : k <+: a ++ b) :
    k <+: a ∨ ∃ k2, k = a ++ k2 ∧ k2 <+: b := by
  induction a generalizing k with
  | nil => exact Or.inr ⟨k, by simp, by simpa using h⟩
  | cons c a2 ih =>
    cases k with
    | nil => exact Or.inl pref_nil_any
    | cons k0 k1 =>
      rw [List.cons_append] at h
      obtain ⟨h0, h1⟩ := pref_cons_iff.mp h
      subst h0
      rcases ih h1 with h2 | ⟨k2, hk2, h3⟩
      · exact Or.inl (pref_cons_iff.mpr ⟨rfl, h2⟩)
      · exact Or.inr ⟨k2, by rw [List.cons_append, hk2], h3⟩

theorem pref_of_pref_le {l1 l2 t : Txt} (h1 : l1 <+: t) (h2 : l2 <+: t)
    (h : l1.length ≤ l2.length) : l1 <+: l2 := by
  obtain ⟨r2, rfl⟩ := h2
  rcases pref_append_split h1 with h3 | ⟨k2, rfl, h4⟩
  · exact h3
  · have hk : k2 = [] := by
      rw [List.length_append] at h
      exact List.eq_nil_of_length_eq_zero (by omega)
    subst hk
    exact ⟨[], by simp⟩

theorem infix_cons_split {k t : Txt} {c : Char} (h : k <:+: c :: t) :
    k <+: c :: t ∨ k <:+: t := by
  obtain ⟨s, r, hs⟩ := h
  cases s with
  | nil => exact Or.inl ⟨r, by simpa using hs⟩
  | cons s0 s1 =>
    rw [List.cons_append, List.cons_append] at hs
    injection hs with h1 h2
    exact Or.inr ⟨s1, r, h2⟩

theorem infix_append_split {k a b : Txt} (h : k <:+: a ++ b) :
    k <:+: a ∨ k <:+: b ∨
      ∃ i, 0 < i ∧ i < k.length ∧ k.take i <:+ a ∧ k.drop i <+: b := by
  induction a generalizing k with
  | nil => exact Or.inr (Or.inl (by simpa using h))
  | cons c a2 ih =>
    rw [List.cons_append] at h
    rcases infix_cons_split h with h1 | h1
    · rcases pref_append_split (a := c :: a2) (b := b) h1 with h2 | ⟨k2, hk2, h3⟩
      · exact Or.inl (infix_of_pref h2)
      · cases k2 with
        | nil =>
          refine Or.inl ?_
          rw [hk2]
          exact ⟨[], [], by simp⟩
        | cons q0 q1 =>
          refine Or.inr (Or.inr ⟨(c :: a2).length, by simp, ?_, ?_, ?_⟩)
          · rw [hk2, List.length_append]
            simp
          · rw [hk2, List.take_left]
          · rw [hk2, List.drop_left]
            exact h3
    · rcases ih h1 with h2 | h2 | ⟨i, hi0, hik, hta, hdr⟩
      · exact Or.inl (infix_cons_lift h2)
      · exact Or.inr (Or.inl h2)
      · exact Or.inr (Or.inr ⟨i, hi0, hik, suff_cons_lift hta, hdr⟩)

/-! `replaceAll` on texts without an occurrence, and the relation between
the two per-file loops. -/

theorem replaceAllFuel_eq_self {k v : Txt} (fuel : Nat) (t : Txt) (h : ¬ k <:+: t) :
    replaceAllFuel k v fuel t = t := by
  induction t generalizing fuel with
  | nil => cases fuel <;> rfl
  | cons c cs ih =>
    cases fuel with
    | zero => rfl
    | succ fuel =>
      have hng : ¬ (k ≠ [] ∧ k <+: (c :: cs)) := by
        rintro ⟨hk, hp⟩
        exact h (infix_of_pref hp)
      simp only [replaceAllFuel, if_neg hng]
      rw [ih fuel (fun hc => h (infix_cons_lift hc))]

theorem replaceAll_eq_self {k v t : Txt} (h : ¬ k <:+: t) : replaceAll k v t = t :=
  replaceAllFuel_eq_self t.length t h

theorem fixer_eq_renamer_update : ∀ (rs : List (Txt × Txt)) (t : Txt),
    fixerContentUpdate rs t = renamerContentUpdate rs t := by
  intro rs
  induction rs with
  | nil => intro t; rfl
  | cons p rest ih =>
    intro t
    obtain ⟨old, nw⟩ := p
    by_cases h : old <:+: t
    · simp only [fixerContentUpdate, renamerContentUpdate, if_pos h]
      exact ih _
    · simp only [fixerContentUpdate, renamerContentUpdate, if_neg h,
        replaceAll_eq_self h]
      exact ih _

theorem renamerContentUpdate_eq_foldl : ∀ (rs : List (Txt × Txt)) (t : Txt),
    renamerContentUpdate rs t = rs.foldl (fun acc p => replaceAll p.1 p.2 acc) t := by
  intro rs
  induction rs with
  | nil => intro t; rfl
  | cons p rest ih =>
    intro t
    obtain ⟨old, nw⟩ := p
    simp only [renamerContentUpdate, List.foldl]
    exact ih _

theorem renamerContentUpdate_append (l1 l2 : List (Txt × Txt)) (t : Txt) :
    renamerContentUpdate (l1 ++ l2) t
      = renamerContentUpdate l2 (renamerContentUpdate l1 t) := by
  induction l1 generalizing t with
  | nil => rfl
  | cons p rest ih =>
    obtain ⟨old, nw⟩ := p
    simp only [List.cons_append, renamerContentUpdate]
    exact ih _

/-- C7: for every input text, the per-file transformation of each script
equals the left fold of literal substring replacement over its mapping,
taken in the listed iteration order, so a later entry acts on text already
rewritten by earlier entries. -/
theorem claim7_fold_order (t : Txt) :
    renamerContentUpdate renamerReplacements t
        = renamerReplacements.foldl (fun acc p => replaceAll p.1 p.2 acc) t ∧
    fixerContentUpdate importReplacements t
        = importReplacements.foldl (fun acc p => replaceAll p.1 p.2 acc) t :=
  ⟨renamerContentUpdate_eq_foldl _ t, by
    rw [fixer_eq_renamer_update]
    exact renamerContentUpdate_eq_foldl _ t⟩

/-- C10: the Import Fixer's guarded substitution loop agrees, on every
input text and every pair list, with the Renamer's unguarded fold of
`replaceAll` over the same pairs in the same order; the membership guard
never changes the result. -/
theorem claim10_guard_equivalence (rs : List (Txt × Txt)) (t : Txt) :
    fixerContentUpdate rs t = renamerContentUpdate rs t :=
  fixer_eq_renamer_update rs t

/-- An ASCII single-quote character. -/
def singleQuote : Char := Char.ofNat 39

/-- The text `import X from './VideoExtension.js'`. -/
def claim9Input : Txt :=
  "import X from ".toList ++ [singleQuote] ++ "./VideoExtension.js".toList ++ [singleQuote]

/-- The text `import X from './video-extension.js'`. -/
def claim9Output : Txt :=
  "import X from ".toList ++ [singleQuote] ++ "./video-extension.js".toList ++ [singleQuote]

/-- C9: on the text `import X from './VideoExtension.js'` the Import
Fixer's per-file transformation produces exactly
`import X from './video-extension.js'`, and the responsible entry
`VideoExtension.js -> video-extension.js` is in the mapping. -/
theorem claim9_video_extension :
    ("VideoExtension.js".toList, "video-extension.js".toList) ∈ importReplacements ∧
    fixerContentUpdate importReplacements claim9Input = claim9Output := by decide

theorem drop_succ_eq_tail (B : Txt) (j : Nat) : B.drop (j + 1) = (B.drop j).tail := by
  rw [← List.drop_one, List.drop_drop]

/-- Tracking lemma: a nonempty proper suffix of `B` that is a prefix of the
output of one replacement pass was already a prefix of the input, provided
no such suffix is a prefix of the inserted text `v` and `v` is not inside
`B`. -/
theorem drop_pref_replaceAllFuel {A v B : Txt}
    (h1 : ∀ j, j < B.length → 0 < j → ¬ (B.drop j <+: v))
    (h2 : ¬ v <:+: B) :
    ∀ (fuel : Nat) (u : Txt) (j : Nat), j < B.length → 0 < j →
      B.drop j <+: replaceAllFuel A v fuel u → B.drop j <+: u := by
  intro fuel
  induction fuel with
  | zero =>
    intro u j hj hj0 hp
    cases u with
    | nil => exact hp
    | cons c cs => exact hp
  | succ fuel ih =>
    intro u j hj hj0 hp
    cases u with
    | nil => exact hp
    | cons c cs =>
      by_cases hg : A ≠ [] ∧ A <+: (c :: cs)
      · rw [show replaceAllFuel A v (fuel + 1) (c :: cs)
              = v ++ replaceAllFuel A v fuel ((c :: cs).drop A.length) from by
            simp only [replaceAllFuel, if_pos hg]] at hp
        by_cases hlen : (B.drop j).length ≤ v.length
        · have hpv : B.drop j <+: v := pref_of_pref_le hp ⟨_, rfl⟩ hlen
          exact absurd hpv (h1 j hj hj0)
        · have hvp : v <+: B.drop j := pref_of_pref_le ⟨_, rfl⟩ hp (by omega)
          exact absurd (infix_of_pref_suff hvp (suff_drop B j)) h2
      · rw [show replaceAllFuel A v (fuel + 1) (c :: cs)
              = c :: replaceAllFuel A v fuel cs from by
            simp only [replaceAllFuel, if_neg hg]] at hp
        have hlp : 0 < (B.drop j).length := by
          rw [List.length_drop]; omega
        obtain ⟨s0, s1, hs⟩ : ∃ s0 s1, B.drop j = s0 :: s1 := by
          cases hd : B.drop j with
          | nil => rw [hd] at hlp; simp at hlp
          | cons s0 s1 => exact ⟨s0, s1, rfl⟩
        rw [hs] at hp
        obtain ⟨hc, hp1⟩ := pref_cons_iff.mp hp
        subst hc
        have hs1 : B.drop (j + 1) = s1 := by
          rw [drop_succ_eq_tail, hs]
          rfl
        cases s1 with
        | nil =>
          rw [hs]
          exact ⟨cs, rfl⟩
        | cons x xs =>
          have hj1 : j + 1 < B.length := by
            have := congrArg List.length hs1
            rw [List.length_drop] at this
            simp only [List.length_cons] at this
            omega
          have hrec : B.drop (j + 1) <+: cs := by
            refine ih cs (j + 1) hj1 (by omega) ?_
            rw [hs1]
            exact hp1
          rw [hs]
          refine pref_cons_iff.mpr ⟨rfl, ?_⟩
          rw [← hs1]
          exact hrec

/-- One replacement pass with key `k` leaves no occurrence of `k`, for
every input text, under `elimCond`-style side conditions on `(k, v)`. -/
theorem not_infix_replaceAllFuel_self {k v : Txt} (hk : k ≠ [])
    (h1 : ∀ j, j < k.length → 0 < j → ¬ (k.drop j <+: v))
    (h2 : ¬ v <:+: k)
    (h3 : ¬ k <:+: v)
    (h4 : ∀ i, i < k.length → 0 < i → ¬ (k.take i <:+ v)) :
    ∀ (fuel : Nat) (t : Txt), t.length ≤ fuel → ¬ k <:+: replaceAllFuel k v fuel t := by
  intro fuel
  induction fuel with
  | zero =>
    intro t ht hinf
    have hnil : t = [] := List.eq_nil_of_length_eq_zero (by omega)
    subst hnil
    exact hk (infix_nil_eq hinf)
  | succ fuel ih =>
    intro t ht hinf
    cases t with
    | nil => exact hk (infix_nil_eq hinf)
    | cons c cs =>
      have hk1 : 0 < k.length := List.length_pos.mpr hk
      by_cases hg : k ≠ [] ∧ k <+: (c :: cs)
      · rw [show replaceAllFuel k v (fuel + 1) (c :: cs)
              = v ++ replaceAllFuel k v fuel ((c :: cs).drop k.length) from by
            simp only [replaceAllFuel, if_pos hg]] at hinf
        rcases infix_append_split hinf with ha | ha | ⟨i, hi0, hik, hta, _⟩
        · exact h3 ha
        · refine ih ((c :: cs).drop k.length) ?_ ha
          rw [List.length_drop]
          simp only [List.length_cons] at ht ⊢
          omega
        · exact h4 i hik hi0 hta
      · rw [show replaceAllFuel k v (fuel + 1) (c :: cs)
              = c :: replaceAllFuel k v fuel cs from by
            simp only [replaceAllFuel, if_neg hg]] at hinf
        rcases infix_cons_split hinf with ha | ha
        · obtain ⟨k0, k1, rfl⟩ : ∃ k0 k1, k = k0 :: k1 := by
            cases k with
            | nil => exact absurd rfl hk
            | cons k0 k1 => exact ⟨k0, k1, rfl⟩
          obtain ⟨hc, hpre⟩ := pref_cons_iff.mp ha
          subst hc
          cases k1 with
          | nil => exact hg ⟨hk, pref_cons_iff.mpr ⟨rfl, pref_nil_any⟩⟩
          | cons x xs =>
            have hdp := drop_pref_replaceAllFuel h1 h2 fuel cs 1
              (by simp only [List.length_cons]; omega) (by omega) hpre
            exact hg ⟨hk, pref_cons_iff.mpr ⟨rfl, hdp⟩⟩
        · refine ih cs ?_ ha
          simp only [List.length_cons] at ht
          omega

/-- One replacement pass with key `a` cannot create an occurrence of a
different key `b`, under `presCond`-style side conditions on `(b, a, v)`. -/
theorem not_infix_replaceAllFuel_other {A v B : Txt}
    (g1 : ¬ B <:+: v)
    (g2 : ∀ i, i < B.length → 0 < i → ¬ (B.take i <:+ v))
    (g3 : ∀ j, j < B.length → 0 < j → ¬ (B.drop j <+: v))
    (g4 : ¬ v <:+: B) :
    ∀ (fuel : Nat) (t : Txt), ¬ B <:+: t → ¬ B <:+: replaceAllFuel A v fuel t := by
  intro fuel
  induction fuel with
  | zero =>
    intro t ht hinf
    cases t with
    | nil => exact ht hinf
    | cons c cs => exact ht hinf
  | succ fuel ih =>
    intro t ht hinf
    cases t with
    | nil => exact ht hinf
    | cons c cs =>
      by_cases hg : A ≠ [] ∧ A <+: (c :: cs)
      · rw [show replaceAllFuel A v (fuel + 1) (c :: cs)
              = v ++ replaceAllFuel A v fuel ((c :: cs).drop A.length) from by
            simp only [replaceAllFuel, if_pos hg]] at hinf
        rcases infix_append_split hinf with ha | ha | ⟨i, hi0, hik, hta, _⟩
        · exact g1 ha
        · exact ih ((c :: cs).drop A.length) (fun hx => ht (infix_drop_lift hx)) ha
        · exact g2 i hik hi0 hta
      · rw [show replaceAllFuel A v (fuel + 1) (c :: cs)
              = c :: replaceAllFuel A v fuel cs from by
            simp only [replaceAllFuel, if_neg hg]] at hinf
        rcases infix_cons_split hinf with ha | ha
        · have hBn : B ≠ [] := fun hB => ht (hB ▸ nil_infix_any)
          obtain ⟨b0, B1, rfl⟩ : ∃ b0 B1, B = b0 :: B1 := by
            cases B with
            | nil => exact absurd rfl hBn
            | cons b0 B1 => exact ⟨b0, B1, rfl⟩
          obtain ⟨hc, hpre⟩ := pref_cons_iff.mp ha
          subst hc
          cases B1 with
          | nil => exact ht (infix_of_pref ⟨cs, rfl⟩)
          | cons x xs =>
            have hdp := drop_pref_replaceAllFuel g3 g4 fuel cs 1
              (by simp only [List.length_cons]; omega) (by omega) hpre
            exact ht (infix_of_pref (pref_cons_iff.mpr ⟨rfl, hdp⟩))
        · exact ih cs (fun hx => ht (infix_cons_lift hx)) ha

/-- Side conditions on a mapping pair `(k, v)` under which one replacement
pass removes every occurrence of `k` from every input text: no nonempty
proper suffix of `k` is a prefix of `v`, `v` does not occur in `k`, `k`
does not occur in `v`, and no nonempty proper prefix of `k` is a suffix of
`v`.  All conditions are decidable, so concrete pairs are checked by
`decide`. -/
abbrev elimCond (k v : Txt) : Prop :=
  k ≠ [] ∧
  (∀ j, j < k.length → 0 < j → ¬ (k.drop j <+: v)) ∧
  ¬ v <:+: k ∧
  ¬ k <:+: v ∧
  (∀ i, i < k.length → 0 < i → ¬ (k.take i <:+ v))

/-- Side conditions under which a replacement pass inserting `v` cannot
create a new occurrence of a key `b`. -/
abbrev presCond (b v : Txt) : Prop :=
  ¬ b <:+: v ∧
  (∀ i, i < b.length → 0 < i → ¬ (b.take i <:+ v)) ∧
  (∀ j, j < b.length → 0 < j → ¬ (b.drop j <+: v)) ∧
  ¬ v <:+: b

theorem not_infix_replaceAll_self {k v : Txt} (h : elimCond k v) (t : Txt) :
    ¬ k <:+: replaceAll k v t :=
  not_infix_replaceAllFuel_self h.1 h.2.1 h.2.2.1 h.2.2.2.1 h.2.2.2.2
    t.length t (Nat.le_refl _)

theorem not_infix_replaceAll_other {a v b : Txt} (h : presCond b v) (t : Txt)
    (ht : ¬ b <:+: t) : ¬ b <:+: replaceAll a v t :=
  not_infix_replaceAllFuel_other h.1 h.2.1 h.2.2.1 h.2.2.2 t.length t ht

theorem not_infix_renamerContentUpdate {b : Txt} :
    ∀ (rs : List (Txt × Txt)) (t : Txt),
      (∀ p ∈ rs, presCond b p.2) → ¬ b <:+: t →
        ¬ b <:+: renamerContentUpdate rs t := by
  intro rs
  induction rs with
  | nil => intro t _ ht; exact ht
  | cons p rest ih =>
    intro t hp ht
    obtain ⟨a, v⟩ := p
    simp only [renamerContentUpdate]
    exact ih _ (fun q hq => hp q (List.mem_cons_of_mem _ hq))
      (not_infix_replaceAll_other (hp (a, v) (List.mem_cons_self _ _)) t ht)

/-- If every pair of `rs` satisfies `elimCond` and no later pair can
recreate an earlier key (`presCond` pairwise), then after folding the
whole list no key of `rs` occurs in the result, whatever the input. -/
theorem keys_eliminated :
    ∀ (rs : List (Txt × Txt)),
      (∀ p ∈ rs, elimCond p.1 p.2) →
      List.Pairwise (fun p q => presCond p.1 q.2) rs →
      ∀ (t : Txt), ∀ p ∈ rs, ¬ p.1 <:+: renamerContentUpdate rs t := by
  intro rs
  induction rs with
  | nil => intro _ _ t p hp; exact absurd hp (List.not_mem_nil p)
  | cons q rest ih =>
    intro he hpw t p hp
    obtain ⟨a, v⟩ := q
    obtain ⟨hhead, htail⟩ := List.pairwise_cons.mp hpw
    simp only [renamerContentUpdate]
    rcases List.mem_cons.mp hp with rfl | hp2
    · exact not_infix_renamerContentUpdate rest (replaceAll a v t)
        (fun q2 hq2 => hhead q2 hq2)
        (not_infix_replaceAll_self (he (a, v) (List.mem_cons_self _ _)) t)
    · exact ih (fun r hr => he r (List.mem_cons_of_mem _ hr)) htail
        (replaceAll a v t) p hp2

theorem renamerContentUpdate_eq_self :
    ∀ (rs : List (Txt × Txt)) (t : Txt), (∀ p ∈ rs, ¬ p.1 <:+: t) →
      renamerContentUpdate rs t = t := by
  intro rs
  induction rs with
  | nil => intro t _; rfl
  | cons p rest ih =>
    intro t h
    obtain ⟨a, v⟩ := p
    simp only [renamerContentUpdate]
    rw [replaceAll_eq_self (h (a, v) (List.mem_cons_self _ _))]
    exact ih t (fun q hq => h q (List.mem_cons_of_mem _ hq))

/-- C2: the per-file transformation of the Import Fixer is idempotent: on
every input text, applying the full IMPORT_REPLACEMENTS sequence twice
gives the same result as applying it once, so a second run changes no
file. -/
theorem claim2_fixer_idempotent (t : Txt) :
    fixerContentUpdate importReplacements (fixerContentUpdate importReplacements t)
      = fixerContentUpdate importReplacements t := by
  rw [fixer_eq_renamer_update, fixer_eq_renamer_update]
  exact renamerContentUpdate_eq_self importReplacements _
    (fun p hp => keys_eliminated importReplacements (by decide) (by decide) t p hp)

/-- The first 22 entries of the Renamer second-pass mapping
(MediaPlaceHolder.svelte through EdraToolTip.svelte). -/
def renamerEarlyPairs : List (Txt × Txt) := renamerReplacements.take 22

/-- The last 18 entries of the Renamer second-pass mapping
(IFramePlaceHolder.svelte through Link.svelte). -/
def renamerLatePairs : List (Txt × Txt) := renamerReplacements.drop 22

/-- The input text of the C1 counterexample. -/
def claim1Input : Txt := "IFrame.tSearchAndReplace.svelte".toList

/-- C1 counterexample: `IFrame.ts` is one of the old tokens of the
mapping, yet on the input `IFrame.tSearchAndReplace.svelte` the folded
result (`IFrame.tsearch-and-replace.svelte`) still contains `IFrame.ts` as
a literal substring: the replacement for `SearchAndReplace.svelte` pastes
a lowercase `s` right after the preceding `IFrame.t`. -/
theorem claim1_counterexample :
    ("IFrame.ts".toList, "iframe.ts".toList) ∈ renamerReplacements ∧
    "IFrame.ts".toList <:+: renamerContentUpdate renamerReplacements claim1Input := by
  decide

/-- C1 amended: the mapping has 40 keys (not 41), and only for the last 18
of them (IFramePlaceHolder.svelte through Link.svelte) does the second
pass guarantee, for every input text, that the folded result contains no
occurrence of the key; keys earlier in the mapping can be recreated by a
later replacement whose inserted text abuts remaining input. -/
theorem claim1_amended (t : Txt) (p : Txt × Txt) (hp : p ∈ renamerLatePairs) :
    ¬ p.1 <:+: renamerContentUpdate renamerReplacements t := by
  have hsplit : renamerReplacements = renamerEarlyPairs ++ renamerLatePairs :=
    (List.take_append_drop 22 renamerReplacements).symm
  rw [hsplit, renamerContentUpdate_append]
  exact keys_eliminated renamerLatePairs (by decide) (by decide) _ p hp

/-- Witness for C1 amended at the key `Link.svelte` and a concrete text. -/
theorem claim1_amended_witness :
    ¬ "Link.svelte".toList <:+:
        renamerContentUpdate renamerReplacements ("a Link.svelte b".toList) :=
  claim1_amended ("a Link.svelte b".toList)
    ("Link.svelte".toList, "link.svelte".toList) (by decide)

/-- The `RENAMES` list of the Renamer (rename-edra-to-kebab.py,
lines 12-72): (source path, destination path) pairs, in source order. -/
def renamesList : List (Txt × Txt) :=
  [ ("src/lib/components/edra/components/MediaPlaceHolder.svelte".toList,
      "src/lib/components/edra/components/media-placeholder.svelte".toList),
    ("src/lib/components/edra/components/BubbleMenu.svelte".toList,
      "src/lib/components/edra/components/bubble-menu.svelte".toList),
    ("src/lib/components/edra/components/DragHandle.svelte".toList,
      "src/lib/components/edra/components/drag-handle.svelte".toList),
    ("src/lib/components/edra/extensions/FindAndReplace.ts".toList,
      "src/lib/components/edra/extensions/find-and-replace.ts".toList),
    ("src/lib/components/edra/extensions/InlineMathReplacer.ts".toList,
      "src/lib/components/edra/extensions/inline-math-replacer.ts".toList),
    ("src/lib/components/edra/extensions/ColorHighlighter.ts".toList,
      "src/lib/components/edra/extensions/color-highlighter.ts".toList),
    ("src/lib/components/edra/extensions/video/VideoPlaceholder.ts".toList,
      "src/lib/components/edra/extensions/video/video-placeholder.ts".toList),
    ("src/lib/components/edra/extensions/video/VideoExtension.ts".toList,
      "src/lib/components/edra/extensions/video/video-extension.ts".toList),
    ("src/lib/components/edra/extensions/video/VideoExtended.ts".toList,
      "src/lib/components/edra/extensions/video/video-extended.ts".toList),
    ("src/lib/components/edra/extensions/iframe/IFramePlaceholder.ts".toList,
      "src/lib/components/edra/extensions/iframe/iframe-placeholder.ts".toList),
    ("src/lib/components/edra/extensions/iframe/IFrame.ts".toList,
      "src/lib/components/edra/extensions/iframe/iframe.ts".toList),
    ("src/lib/components/edra/extensions/iframe/IFrameExtended.ts".toList,
      "src/lib/components/edra/extensions/iframe/iframe-extended.ts".toList),
    ("src/lib/components/edra/extensions/audio/AudioPlaceholder.ts".toList,
      "src/lib/components/edra/extensions/audio/audio-placeholder.ts".toList),
    ("src/lib/components/edra/extensions/audio/AudiExtended.ts".toList,
      "src/lib/components/edra/extensions/audio/audio-extended.ts".toList),
    ("src/lib/components/edra/extensions/audio/AudioExtension.ts".toList,
      "src/lib/components/edra/extensions/audio/audio-extension.ts".toList),
    ("src/lib/components/edra/extensions/image/ImageExtended.ts".toList,
      "src/lib/components/edra/extensions/image/image-extended.ts".toList),
    ("src/lib/components/edra/extensions/image/ImagePlaceholder.ts".toList,
      "src/lib/components/edra/extensions/image/image-placeholder.ts".toList),
    ("src/lib/components/edra/extensions/drag-handle/ClipboardSerializer.ts".toList,
      "src/lib/components/edra/extensions/drag-handle/clipboard-serializer.ts".toList),
    ("src/lib/components/edra/shadcn/components/IFrameExtended.svelte".toList,
      "src/lib/components/edra/shadcn/components/iframe-extended.svelte".toList),
    ("src/lib/components/edra/shadcn/components/VideoExtended.svelte".toList,
      "src/lib/components/edra/shadcn/components/video-extended.svelte".toList),
    ("src/lib/components/edra/shadcn/components/VideoPlaceholder.svelte".toList,
      "src/lib/components/edra/shadcn/components/video-placeholder.svelte".toList),
    ("src/lib/components/edra/shadcn/components/EdraToolTip.svelte".toList,
      "src/lib/components/edra/shadcn/components/edra-tooltip.svelte".toList),
    ("src/lib/components/edra/shadcn/components/IFramePlaceHolder.svelte".toList,
      "src/lib/components/edra/shadcn/components/iframe-placeholder.svelte".toList),
    ("src/lib/components/edra/shadcn/components/ImagePlaceholder.svelte".toList,
      "src/lib/components/edra/shadcn/components/image-placeholder.svelte".toList),
    ("src/lib/components/edra/shadcn/components/MediaExtended.svelte".toList,
      "src/lib/components/edra/shadcn/components/media-extended.svelte".toList),
    ("src/lib/components/edra/shadcn/components/CodeBlock.svelte".toList,
      "src/lib/components/edra/shadcn/components/code-block.svelte".toList),
    ("src/lib/components/edra/shadcn/components/AudioExtended.svelte".toList,
      "src/lib/components/edra/shadcn/components/audio-extended.svelte".toList),
    ("src/lib/components/edra/shadcn/components/SlashCommandList.svelte".toList,
      "src/lib/components/edra/shadcn/components/slash-command-list.svelte".toList),
    ("src/lib/components/edra/shadcn/components/AudioPlaceHolder.svelte".toList,
      "src/lib/components/edra/shadcn/components/audio-placeholder.svelte".toList),
    ("src/lib/components/edra/shadcn/components/ImageExtended.svelte".toList,
      "src/lib/components/edra/shadcn/components/image-extended.svelte".toList),
    ("src/lib/components/edra/shadcn/components/ToolBarIcon.svelte".toList,
      "src/lib/components/edra/shadcn/components/toolbar-icon.svelte".toList),
    ("src/lib/components/edra/shadcn/components/toolbar/Alignment.svelte".toList,
      "src/lib/components/edra/shadcn/components/toolbar/alignment.svelte".toList),
    ("src/lib/components/edra/shadcn/components/toolbar/QuickColors.svelte".toList,
      "src/lib/components/edra/shadcn/components/toolbar/quick-colors.svelte".toList),
    ("src/lib/components/edra/shadcn/components/toolbar/Headings.svelte".toList,
      "src/lib/components/edra/shadcn/components/toolbar/headings.svelte".toList),
    ("src/lib/components/edra/shadcn/components/toolbar/SearchAndReplace.svelte".toList,
      "src/lib/components/edra/shadcn/components/toolbar/search-and-replace.svelte".toList),
    ("src/lib/components/edra/shadcn/components/toolbar/FontSize.svelte".toList,
      "src/lib/components/edra/shadcn/components/toolbar/font-size.svelte".toList),
    ("src/lib/components/edra/shadcn/menus/TableRow.svelte".toList,
      "src/lib/components/edra/shadcn/menus/table-row.svelte".toList),
    ("src/lib/components/edra/shadcn/menus/TableCol.svelte".toList,
      "src/lib/components/edra/shadcn/menus/table-col.svelte".toList),
    ("src/lib/components/edra/shadcn/menus/Menu.svelte".toList,
      "src/lib/components/edra/shadcn/menus/menu.svelte".toList),
    ("src/lib/components/edra/shadcn/menus/Link.svelte".toList,
      "src/lib/components/edra/shadcn/menus/link.svelte".toList) ]

/-- Outcome of the external `git mv` invocation
(`subprocess.run(["git", "mv", src, dest], check=True, ...)`):
it succeeds, or it raises `subprocess.CalledProcessError` (the command ran
and exited nonzero, because of `check=True`), or the invocation itself
fails with another exception (for example `FileNotFoundError` when the
`git` executable is missing).  Only `CalledProcessError` is caught by the
`except` clause of the script. -/
inductive GitMvResult
  | success
  | calledProcessError
  | otherFailure
deriving DecidableEq

/-- Progress messages printed by the first pass of the Renamer. -/
inductive RenMsg
  | renaming (src dest : Txt)
  | warning (src : Txt)
deriving DecidableEq

/-- A flat model of the filesystem: a list of (path, contents) entries. -/
abbrev FileSys := List (Txt × Txt)

def fsLookup : FileSys → Txt → Option Txt
  | [], _ => none
  | (q, c) :: rest, p => if q = p then some c else fsLookup rest p

def fsErase : FileSys → Txt → FileSys
  | [], _ => []
  | (q, c) :: rest, p => if q = p then fsErase rest p else (q, c) :: fsErase rest p

/-- Moving a file: the destination receives the contents of the source and
the source entry disappears (both `git mv` and `Path.rename` have this
effect when the source exists). -/
def fsRename (fs : FileSys) (src dest : Txt) : FileSys :=
  match fsLookup fs src with
  | none => fs
  | some c => (dest, c) :: fsErase (fsErase fs src) dest

def consMsg (m : RenMsg) : Option (FileSys × List RenMsg) → Option (FileSys × List RenMsg)
  | none => none
  | some (fs, ms) => some (fs, m :: ms)

/-- First pass of the Renamer (rename-edra-to-kebab.py, lines 82-94) over
a filesystem, given the outcome `g src dest` of each attempted `git mv`.
A result of `none` models an uncaught exception aborting the whole run:
that happens exactly when a source exists and the `git mv` invocation
fails with something other than `CalledProcessError`, since only
`CalledProcessError` triggers the `src_path.rename(dest_path)` fallback. -/
def renamerFirstPass (g : Txt → Txt → GitMvResult) :
    List (Txt × Txt) → FileSys → Option (FileSys × List RenMsg)
  | [], fs => some (fs, [])
  | (src, dest) :: rest, fs =>
    if (fsLookup fs src).isSome then
      match g src dest with
      | GitMvResult.otherFailure => none
      | _ => consMsg (RenMsg.renaming src dest) (renamerFirstPass g rest (fsRename fs src dest))
    else
      consMsg (RenMsg.warning src) (renamerFirstPass g rest fs)

/-- Source path of the first configured rename pair. -/
def mediaSrc : Txt := "src/lib/components/edra/components/MediaPlaceHolder.svelte".toList

/-- Destination path of the first configured rename pair. -/
def mediaDest : Txt := "src/lib/components/edra/components/media-placeholder.svelte".toList

/-- C3 counterexample: with the source file present, if the external move
invocation fails with something other than a nonzero exit status (modelled
by `otherFailure`, for example a missing `git` executable), the Renamer
does not fall back to a plain filesystem rename: the run aborts (`none`),
whereas the fallback-and-continue outcome promised by the claim would be
the non-aborting value shown in the last conjunct. -/
theorem claim3_counterexample :
    (fsLookup [("a".toList, "x".toList)] ("a".toList)).isSome = true ∧
    GitMvResult.otherFailure ≠ GitMvResult.success ∧
    renamerFirstPass (fun _ _ => GitMvResult.otherFailure)
        [("a".toList, "b".toList)] [("a".toList, "x".toList)] = none ∧
    consMsg (RenMsg.renaming ("a".toList) ("b".toList))
        (renamerFirstPass (fun _ _ => GitMvResult.otherFailure) []
          (fsRename [("a".toList, "x".toList)] ("a".toList) ("b".toList))) ≠ none := by
  decide

/-- C3 amended: the recovery is specific to `CalledProcessError`: for
every configured rename pair whose source exists, if the external move
command exits with a nonzero status, the Renamer performs a plain
filesystem rename of the source to the destination and continues with the
remaining pairs; other failures of the invocation are uncaught and abort
the run. -/
theorem claim3_amended (g : Txt → Txt → GitMvResult) (fs : FileSys)
    (p : Txt × Txt) (rest : List (Txt × Txt))
    (hmem : p ∈ renamesList)
    (hex : (fsLookup fs p.1).isSome = true)
    (hg : g p.1 p.2 = GitMvResult.calledProcessError) :
    renamerFirstPass g (p :: rest) fs =
      consMsg (RenMsg.renaming p.1 p.2)
        (renamerFirstPass g rest (fsRename fs p.1 p.2)) := by
  obtain ⟨src, dest⟩ := p
  simp only [] at hex hg
  simp [renamerFirstPass, hex, hg]

/-- Witness for C3 amended: the first configured pair, a filesystem where
its source exists, and a move command that always exits nonzero. -/
theorem claim3_amended_witness :
    renamerFirstPass (fun _ _ => GitMvResult.calledProcessError)
        [(mediaSrc, mediaDest)] [(mediaSrc, "x".toList)] =
      consMsg (RenMsg.renaming mediaSrc mediaDest)
        (renamerFirstPass (fun _ _ => GitMvResult.calledProcessError) []
          (fsRename [(mediaSrc, "x".toList)] mediaSrc mediaDest)) :=
  claim3_amended _ _ (mediaSrc, mediaDest) [] (by decide) (by decide) rfl

/-- C6: for every configured rename pair whose source path does not exist
in the filesystem, the first pass emits exactly the warning message for
that pair, leaves the filesystem (in particular the destination path)
untouched at that step, does not abort, and continues with the remaining
pairs. -/
theorem claim6_missing_source (g : Txt → Txt → GitMvResult) (fs : FileSys)
    (p : Txt × Txt) (rest : List (Txt × Txt))
    (hmem : p ∈ renamesList)
    (h : fsLookup fs p.1 = none) :
    renamerFirstPass g (p :: rest) fs =
      consMsg (RenMsg.warning p.1) (renamerFirstPass g rest fs) := by
  obtain ⟨src, dest⟩ := p
  simp only [] at h
  simp [renamerFirstPass, h]

/-- Witness for C6: the first configured pair on an empty filesystem. -/
theorem claim6_missing_source_witness :
    renamerFirstPass (fun _ _ => GitMvResult.success)
        [(mediaSrc, mediaDest)] [] =
      consMsg (RenMsg.warning mediaSrc)
        (renamerFirstPass (fun _ _ => GitMvResult.success) [] []) :=
  claim6_missing_source _ _ (mediaSrc, mediaDest) [] (by decide) rfl

/-- The per-file loop of the Import Fixer (fix-edra-imports.py, lines
53-64) over the enumerated files: the resulting (path, contents) list,
the list of paths written back, and the `files_updated` counter. -/
def fixerFilePass : List (Txt × Txt) → List (Txt × Txt) × List Txt × Nat
  | [] => ([], [], 0)
  | (p, c) :: rest =>
    if fixerContentUpdate importReplacements c ≠ c then
      ((p, fixerContentUpdate importReplacements c) :: (fixerFilePass rest).1,
        p :: (fixerFilePass rest).2.1,
        (fixerFilePass rest).2.2 + 1)
    else
      ((p, c) :: (fixerFilePass rest).1, (fixerFilePass rest).2.1, (fixerFilePass rest).2.2)

/-- The second-pass per-file loop of the Renamer (rename-edra-to-kebab.py,
lines 147-156): the resulting files and the paths written back.  The
Renamer keeps no counter of updated files. -/
def renamerFilePass : List (Txt × Txt) → List (Txt × Txt) × List Txt
  | [] => ([], [])
  | (p, c) :: rest =>
    if renamerContentUpdate renamerReplacements c ≠ c then
      ((p, renamerContentUpdate renamerReplacements c) :: (renamerFilePass rest).1,
        p :: (renamerFilePass rest).2)
    else
      ((p, c) :: (renamerFilePass rest).1, (renamerFilePass rest).2)

theorem fixerFilePass_spec (files : List (Txt × Txt)) :
    (fixerFilePass files).1
        = files.map (fun pc => (pc.1, fixerContentUpdate importReplacements pc.2)) ∧
    (fixerFilePass files).2.1
        = (files.filter
            (fun pc => fixerContentUpdate importReplacements pc.2 ≠ pc.2)).map Prod.fst ∧
    (fixerFilePass files).2.2
        = (files.filter
            (fun pc => fixerContentUpdate importReplacements pc.2 ≠ pc.2)).length := by
  induction files with
  | nil => exact ⟨rfl, rfl, rfl⟩
  | cons pc rest ih =>
    obtain ⟨p, c⟩ := pc
    by_cases h : fixerContentUpdate importReplacements c ≠ c
    · simp [fixerFilePass, h, ih.1, ih.2.1, ih.2.2]
    · have he : fixerContentUpdate importReplacements c = c := not_ne_iff.mp h
      simp [fixerFilePass, h, he, ih.1, ih.2.1, ih.2.2]

theorem renamerFilePass_spec (files : List (Txt × Txt)) :
    (renamerFilePass files).1
        = files.map (fun pc => (pc.1, renamerContentUpdate renamerReplacements pc.2)) ∧
    (renamerFilePass files).2
        = (files.filter
            (fun pc => renamerContentUpdate renamerReplacements pc.2 ≠ pc.2)).map Prod.fst := by
  induction files with
  | nil => exact ⟨rfl, rfl⟩
  | cons pc rest ih =>
    obtain ⟨p, c⟩ := pc
    by_cases h : renamerContentUpdate renamerReplacements c ≠ c
    · simp [renamerFilePass, h, ih.1, ih.2]
    · have he : renamerContentUpdate renamerReplacements c = c := not_ne_iff.mp h
      simp [renamerFilePass, h, he, ih.1, ih.2]

/-- One line per `print` of the Import Fixer: per-file line. -/
def fixerUpdatedLine (p : Txt) : Txt := "✓ Updated: ".toList ++ p

/-- The final line of the Import Fixer, carrying `files_updated`. -/
def fixerSummaryLine (n : Nat) : Txt :=
  "\n✓ Fixed imports in ".toList ++ (Nat.repr n).toList ++ " files!".toList

/-- Output lines of an Import Fixer run: banner, one line per updated
file, and the final count line. -/
def fixerOutputLines (files : List (Txt × Txt)) : List Txt :=
  "Fixing import statements...\n".toList
    :: ((fixerFilePass files).2.1.map fixerUpdatedLine
      ++ [fixerSummaryLine (fixerFilePass files).2.2])

/-- Per-file line of the Renamer second pass. -/
def renamerUpdatedLine (p : Txt) : Txt := "Updated imports in: ".toList ++ p

/-- Output lines of the Renamer from the start of its second pass to the
end of the run: banner, one line per updated file, two completion lines.
No line carries a count. -/
def renamerSecondPassLines (files : List (Txt × Txt)) : List Txt :=
  "Now updating imports in all files...\n".toList
    :: ((renamerFilePass files).2.map renamerUpdatedLine
      ++ ["\n✓ Import updates complete!".toList, "\nAll done! ✓".toList])

/-- C4 counterexample: on a file list where exactly one file is updated,
no output line of the Renamer from its second pass onwards contains the
decimal numeral of that count as a substring: the Renamer reports no
count of updated files (the count line belongs to the Import Fixer). -/
theorem claim4_counterexample :
    ((renamerFilePass [("a.ts".toList, "BubbleMenu.svelte".toList)]).2).length = 1 ∧
    (renamerSecondPassLines [("a.ts".toList, "BubbleMenu.svelte".toList)]).all
        (fun line => ! decide ((Nat.repr 1).toList <:+: line)) = true := by
  decide

/-- C4 amended: the count report belongs to the Import Fixer, not the
Renamer: for every file list, the Import Fixer's output contains the
summary line carrying exactly the number of files whose contents were
changed and persisted; the Renamer ends with fixed completion lines
instead. -/
theorem claim4_amended (files : List (Txt × Txt)) :
    fixerSummaryLine
        ((files.filter
          (fun pc => fixerContentUpdate importReplacements pc.2 ≠ pc.2)).length)
      ∈ fixerOutputLines files := by
  rw [← (fixerFilePass_spec files).2.2]
  simp [fixerOutputLines]

/-- C8: a run of the Import Fixer never changes a file's path or the set
of files (paths are preserved exactly), and in both scripts precisely the
files whose contents are changed by the substitutions are written back,
while unchanged entries keep identical contents. -/
theorem claim8_frame (files : List (Txt × Txt)) :
    (fixerFilePass files).1.map Prod.fst = files.map Prod.fst ∧
    (fixerFilePass files).1
        = files.map (fun pc => (pc.1, fixerContentUpdate importReplacements pc.2)) ∧
    (fixerFilePass files).2.1
        = (files.filter
            (fun pc => fixerContentUpdate importReplacements pc.2 ≠ pc.2)).map Prod.fst ∧
    (renamerFilePass files).1
        = files.map (fun pc => (pc.1, renamerContentUpdate renamerReplacements pc.2)) ∧
    (renamerFilePass files).2
        = (files.filter
            (fun pc => renamerContentUpdate renamerReplacements pc.2 ≠ pc.2)).map Prod.fst := by
  refine ⟨?_, (fixerFilePass_spec files).1, (fixerFilePass_spec files).2.1,
    (renamerFilePass_spec files).1, (renamerFilePass_spec files).2⟩
  rw [(fixerFilePass_spec files).1, List.map_map]
  simp [Function.comp]

/-- Python `Path.parent`: drop the last component of a path. -/
def pathParent (p : List String) : List String := p.dropLast

/-- fix-edra-imports.py line 42: `root = Path(__file__).parent.parent`. -/
def fixerProjectRoot (file : List String) : List String := pathParent (pathParent file)

/-- rename-edra-to-kebab.py line 76: `root = Path(__file__).parent.parent`. -/
def renamerProjectRoot (file : List String) : List String := pathParent (pathParent file)

/-- The coarse steps of each script in execution order: `os.chdir(root)`
happens before any filesystem enumeration or rewriting. -/
inductive ScriptStep
  | chdir (d : List String)
  | renamePairs
  | enumerateTargets
  | rewriteTargets
deriving DecidableEq

def fixerMainSteps (file : List String) : List ScriptStep :=
  [ScriptStep.chdir (fixerProjectRoot file), ScriptStep.enumerateTargets,
    ScriptStep.rewriteTargets]

def renamerMainSteps (file : List String) : List ScriptStep :=
  [ScriptStep.chdir (renamerProjectRoot file), ScriptStep.renamePairs,
    ScriptStep.enumerateTargets, ScriptStep.rewriteTargets]

/-- C5 counterexample: for scripts located at
`home/dev/jobboard/scripts/...`, the resolved root is not the directory
containing the script (`.../scripts`) but its parent (`.../jobboard`), so
the working directory is not changed to the directory containing the
script. -/
theorem claim5_counterexample :
    fixerProjectRoot ["home", "dev", "jobboard", "scripts", "fix-edra-imports.py"]
        ≠ pathParent ["home", "dev", "jobboard", "scripts", "fix-edra-imports.py"] ∧
    renamerProjectRoot ["home", "dev", "jobboard", "scripts", "rename-edra-to-kebab.py"]
        ≠ pathParent ["home", "dev", "jobboard", "scripts", "rename-edra-to-kebab.py"] ∧
    (fixerMainSteps ["home", "dev", "jobboard", "scripts", "fix-edra-imports.py"]).head?
        ≠ some (ScriptStep.chdir
          (pathParent ["home", "dev", "jobboard", "scripts", "fix-edra-imports.py"])) := by
  decide

/-- C5 amended: each script resolves its project root as the parent of the
directory containing the script (the scripts live in a `scripts/`
subdirectory of the project root) and changes the working directory to
that root before any filesystem action. -/
theorem claim5_amended (d : List String) (n1 n2 : String) :
    fixerProjectRoot (d ++ ["scripts", n1]) = d ∧
    renamerProjectRoot (d ++ ["scripts", n2]) = d ∧
    (fixerMainSteps (d ++ ["scripts", n1])).head? = some (ScriptStep.chdir d) ∧
    (renamerMainSteps (d ++ ["scripts", n2])).head? = some (ScriptStep.chdir d) := by
  have h : ∀ (l : List String) (a b : String), pathParent (pathParent (l ++ [a, b])) = l := by
    intro l a b
    have h2 : l ++ [a, b] = (l ++ [a]) ++ [b] := (List.append_assoc l [a] [b]).symm
    show ((l ++ [a, b]).dropLast).dropLast = l
    rw [h2, List.dropLast_concat, List.dropLast_concat]
  exact ⟨h d _ _, h d _ _,
    by simp [fixerMainSteps, fixerProjectRoot, h],
    by simp [renamerMainSteps, renamerProjectRoot, h]⟩
